import Mathlib

/-!
Verification of the marketplace verifier
(src/skills/tooling/managing-marketplace/scripts/verify-marketplace.py).

The script is embedded shallowly: Python strings are Lean `String`s, and the
Python string primitives used by the script (strip, lstrip with a character
set, split on a separator, partition, startswith, endswith, substring test,
lower) are reimplemented below with Python semantics on `List Char`.
JSON dynamism is embedded only as far as the script exercises it: manifest
and plugin fields that the script reads are `Option`-valued, and the two
places where the script branches on `isinstance(x, list)` are embedded with
an explicit non-list constructor.  Runtime type errors that the script can
raise (calling string operations on a list-valued frontmatter field) are
embedded as `Option.none` results.  File system reads are instrumented: the
validators return the list of paths passed to `read_text`, in order.

All functions keep the names of the Python functions they embed.
-/

set_option maxRecDepth 20000

/-! ## Python string primitives -/

/-- The Python whitespace set used by `str.strip()`. -/
def pyWsChar (c : Char) : Bool :=
  c = ' ' || c = '\t' || c = '\n' || c = '\r' || c = '\x0b' || c = '\x0c'

/-- Drop trailing characters satisfying `p`. -/
def dropTrailing (p : Char → Bool) (cs : List Char) : List Char :=
  (cs.reverse.dropWhile p).reverse

/-- `str.strip()` on a character list. -/
def pyStripChars (cs : List Char) : List Char :=
  dropTrailing pyWsChar (cs.dropWhile pyWsChar)

/-- Python `s.strip()`. -/
def pyStrip (s : String) : String :=
  String.mk (pyStripChars s.data)

/-- Python `s.lstrip(chars)`: removes all leading characters belonging to the
set `chars` (Python treats the argument as a character set, not a prefix). -/
def pyLstripSet (chars : List Char) (s : String) : String :=
  String.mk (s.data.dropWhile (fun c => chars.contains c))

/-- Python `s.split(sep)` for a one-character separator: yields one more part
than the number of separator occurrences. -/
def pySplitCharAux (sep : Char) : List Char → List Char → List String
  | [], acc => [String.mk acc.reverse]
  | c :: rest, acc =>
    if c = sep then String.mk acc.reverse :: pySplitCharAux sep rest []
    else pySplitCharAux sep rest (c :: acc)

/-- Python `s.split(sep)` for a one-character separator. -/
def pySplitChar (sep : Char) (s : String) : List String :=
  pySplitCharAux sep s.data []

/-- Does the first list start with the second? (Python `startswith`.) -/
def listStarts : List Char → List Char → Bool
  | _, [] => true
  | [], _ :: _ => false
  | c :: cs, d :: ds => c = d && listStarts cs ds

/-- Python `s.startswith(t)`. -/
def strStarts (s t : String) : Bool :=
  listStarts s.data t.data

/-- Python `s.endswith(t)`. -/
def strEnds (s t : String) : Bool :=
  listStarts s.data.reverse t.data.reverse

/-- Python substring test `sub in s` on character lists. -/
def hasSub : List Char → List Char → Bool
  | [], sub => sub.isEmpty
  | c :: rest, sub => listStarts (c :: rest) sub || hasSub rest sub

/-- Python `s.partition(":")`, returning the parts before and after the first
colon (the part after is empty when there is no colon, as in Python). -/
def partitionColon (cs : List Char) : List Char × List Char :=
  (cs.takeWhile (fun c => c ≠ ':'),
   match cs.dropWhile (fun c => c ≠ ':') with
   | [] => []
   | _ :: tl => tl)

/-- Python `s.lower()` (ASCII case mapping; the script only compares against
ASCII literals). -/
def pyLower (s : String) : String :=
  String.mk (s.data.map Char.toLower)

/-- Python `s[n:]` for a nonnegative `n`. -/
def strDropN (s : String) (n : Nat) : String :=
  String.mk (s.data.drop n)

/-! ## Report (class Report) -/

/-- One report entry.  The Python code stores a rendered f-string message;
here the message is represented by the list of values interpolated into it,
in order, which is what the claims inspect. -/
structure Entry where
  rule : String
  msgArgs : List String
  path : Option String
  fix : Option (List String)
deriving DecidableEq, Repr

/-- The `stats` counters of `Report.__init__`. -/
structure Stats where
  plugins_checked : Nat
  skills_checked : Nat
  skills_missing : Nat
  orphans_found : Nat
deriving DecidableEq, Repr

/-- `class Report` (the unused `info` list is omitted). -/
structure Report where
  errors : List Entry
  warnings : List Entry
  stats : Stats
deriving DecidableEq, Repr

/-- A fresh report, as built by `Report.__init__`. -/
def Report.empty : Report :=
  ⟨[], [], ⟨0, 0, 0, 0⟩⟩

/-- `Report.error`: append an error entry. -/
def Report.error (r : Report) (rule : String) (args : List String)
    (path : Option String) (fix : Option (List String)) : Report :=
  { r with errors := r.errors ++ [⟨rule, args, path, fix⟩] }

/-- `Report.warning`: append a warning entry. -/
def Report.warning (r : Report) (rule : String) (args : List String)
    (path : Option String) (fix : Option (List String)) : Report :=
  { r with warnings := r.warnings ++ [⟨rule, args, path, fix⟩] }

/-- `Report.passed`: true iff no error has been recorded. -/
def Report.passed (r : Report) : Bool :=
  r.errors.length == 0

/-- The process exit code computed by `main`:
`sys.exit(0 if report.passed() else 1)`. -/
def exitCode (r : Report) : Nat :=
  if r.passed then 0 else 1

def Report.bumpPlugins (r : Report) : Report :=
  { r with stats := { r.stats with plugins_checked := r.stats.plugins_checked + 1 } }

def Report.bumpSkills (r : Report) : Report :=
  { r with stats := { r.stats with skills_checked := r.stats.skills_checked + 1 } }

def Report.bumpMissing (r : Report) : Report :=
  { r with stats := { r.stats with skills_missing := r.stats.skills_missing + 1 } }

def Report.bumpOrphans (r : Report) : Report :=
  { r with stats := { r.stats with orphans_found := r.stats.orphans_found + 1 } }

/-! ## Frontmatter values and parser (parse_frontmatter) -/

/-- A frontmatter value: a scalar string or a list of strings. -/
inductive FmValue where
  | scalar (s : String)
  | vlist (items : List String)
deriving DecidableEq, Repr

/-- The frontmatter mapping, with Python dict semantics embedded as an
association list: assignment to an existing key overwrites in place,
assignment to a new key appends. -/
abbrev Fm := List (String × FmValue)

/-- Python dict lookup `d.get(k)` / `k in d` on the association list. -/
def dictGet? {α : Type} (d : List (String × α)) (k : String) : Option α :=
  match d with
  | [] => none
  | (k0, v) :: rest => if k0 = k then some v else dictGet? rest k

/-- Python dict assignment `d[k] = v`: overwrite in place or append. -/
def dictSet {α : Type} (d : List (String × α)) (k : String) (v : α) :
    List (String × α) :=
  match d with
  | [] => [(k, v)]
  | (k0, v0) :: rest =>
    if k0 = k then (k0, v) :: rest else (k0, v0) :: dictSet rest k v

/-- The loop body of `parse_frontmatter` over one line.  State: the mapping
so far, `current_key` (the empty string standing for the initial `None`,
which Python treats identically under truthiness), and `current_list`. -/
def fmStep (st : Fm × String × Option (List String)) (line : String) :
    Fm × String × Option (List String) :=
  let fm := st.1
  let ck := st.2.1
  let cl := st.2.2
  let stripped := pyStrip line
  if stripped = "" || strStarts stripped "#" then st
  else if strStarts stripped "- " then
    match cl with
    | some l =>
      if ck ≠ "" then (fm, ck, some (l ++ [pyStrip (strDropN stripped 2)])) else st
    | none => st
  else if stripped.data.contains ':' then
    let parts := partitionColon stripped.data
    let key := String.mk (pyStripChars parts.1)
    let value := String.mk (pyStripChars parts.2)
    let fm1 :=
      match cl with
      | some l => if ck ≠ "" then dictSet fm ck (FmValue.vlist l) else fm
      | none => fm
    if value ≠ "" then (dictSet fm1 key (FmValue.scalar value), key, none)
    else (fm1, key, some [])
  else st

/-- `parse_frontmatter(content)`: returns `(dict, error)`. -/
def parse_frontmatter (content : String) : Option Fm × Option String :=
  let lines := pySplitChar '\n' content
  match lines with
  | [] =>
    -- unreachable: split always yields at least one part; mirrors `if not lines`
    (none, some "No YAML frontmatter found (missing opening)")
  | l0 :: rest =>
    if pyStrip l0 ≠ "---" then
      (none, some "No YAML frontmatter found (missing opening)")
    else
      match rest.findIdx? (fun l => pyStrip l = "---") with
      | none => (none, some "Unclosed YAML frontmatter (missing closing)")
      | some i =>
        let body := rest.take i
        let st := body.foldl fmStep ([], "", none)
        let fm :=
          match st.2.2 with
          | some l => if st.2.1 ≠ "" then dictSet st.1 st.2.1 (FmValue.vlist l) else st.1
          | none => st.1
        (some fm, none)

/-! ## Name pattern (NAME_PATTERN) -/

def isLowerAZ (c : Char) : Bool :=
  'a' ≤ c && c ≤ 'z'

def isLowerDigit (c : Char) : Bool :=
  isLowerAZ c || ('0' ≤ c && c ≤ '9')

/-- Deterministic recognizer for the tail of the regular expression
`[a-z][a-z0-9]*(-[a-z0-9]+)*`.  The flag is true directly after a hyphen,
where at least one further `[a-z0-9]` character is required. -/
def nameRun : List Char → Bool → Bool
  | [], needSeg => !needSeg
  | c :: rest, needSeg =>
    if isLowerDigit c then nameRun rest false
    else if c = '-' && !needSeg then nameRun rest true
    else false

/-- Full match of `[a-z][a-z0-9]*(-[a-z0-9]+)*`. -/
def matchesCore : List Char → Bool
  | [] => false
  | c :: rest => isLowerAZ c && nameRun rest false

/-- `NAME_PATTERN.match(name)` as a boolean.  The pattern is anchored by
`re.match` on the left and by `$` on the right; Python `$` (without
re.MULTILINE) matches at the end of the string or just before a newline that
ends the string, so a single trailing newline after a core match is accepted. -/
def namePatternMatch (s : String) : Bool :=
  matchesCore s.data ||
    (match s.data.getLast? with
     | some c => c = '\n' && matchesCore s.data.dropLast
     | none => false)

def GERUND_SUFFIXES : List String := ["ing", "ment", "tion", "sion"]

def FIRST_PERSON_STARTS : List String := ["i ", "we ", "my ", "our "]

/-- `PurePosixPath(p).parts` for the relative paths the script builds:
path components, with empty components and single dots removed. -/
def pathParts (p : String) : List String :=
  (pySplitChar '/' p).filter (fun s => s ≠ "" && s ≠ ".")

/-! ## Pure validators (validate_name, validate_description) -/

/-- `validate_name(name, skill_path, skill_md, report)`. -/
def validate_name (name skill_path skill_md : String) (r : Report) : Report :=
  let r1 :=
    if name.length > 64 then
      r.error "name-too-long" [name, toString name.length] (some skill_md) none
    else r
  let r2 :=
    if !namePatternMatch name then
      r1.error "invalid-name-format" [name] (some skill_md) none
    else r1
  let r3 :=
    if hasSub name.data ['-', '-'] then
      r2.error "consecutive-hyphens" [name] (some skill_md) none
    else r2
  let firstWord := String.mk (name.data.takeWhile (fun c => c ≠ '-'))
  let r4 :=
    if !(GERUND_SUFFIXES.any (fun s => strEnds firstWord s)) then
      r3.warning "non-gerund-name" [name, firstWord] (some skill_md) none
    else r3
  let parts := pathParts skill_path
  let dirName := parts.getLastD ""
  let parentDir := parts.dropLast.getLastD ""
  let parentName := if parentDir ≠ "" then parentDir ++ "-" ++ dirName else ""
  if name ≠ dirName && name ≠ parentName then
    r4.warning "name-mismatch" [name, dirName, parentName] (some skill_md) none
  else r4

/-- `validate_description(desc, skill_md, report)`. -/
def validate_description (desc skill_md : String) (r : Report) : Report :=
  let r1 :=
    if desc.length > 1024 then
      r.error "description-too-long" [toString desc.length] (some skill_md) none
    else r
  let lower := pyStrip (pyLower desc)
  let r2 :=
    if FIRST_PERSON_STARTS.any (fun p => strStarts lower p) then
      r1.warning "first-person-description" [] (some skill_md) none
    else r1
  if !hasSub lower.data ("use when").data then
    r2.warning "missing-use-when" [] (some skill_md) none
  else r2

/-! ## File system model -/

/-- The file system visible to the script, as a finite map from paths
(relative to the repository root, with canonical single slashes) to file
contents.  Only files named SKILL.md are ever read. -/
structure FS where
  files : List (String × String)
deriving DecidableEq, Repr

def fsRead (fs : FS) (p : String) : Option String :=
  dictGet? fs.files p

def fsIsFile (fs : FS) (p : String) : Bool :=
  (fsRead fs p).isSome

/-- `skill_path.lstrip("./")` from validate_plugin and apply_fixes. -/
def skillNormalize (sp : String) : String :=
  pyLstripSet ['.', '/'] sp

/-- `repo_root / normalized / "SKILL.md"` as a root-relative path
(pathlib drops empty components). -/
def skillMdOf (normalized : String) : String :=
  if normalized = "" then "SKILL.md" else normalized ++ "/SKILL.md"

/-! ## validate_skill_md -/

def lineCount (content : String) : Nat :=
  (pySplitChar '\n' content).length

/-- The `name = fm.get("name", ""); if name: validate_name(...)` step.
A nonempty list value is truthy and later reaches `NAME_PATTERN.match`,
which raises TypeError on a list: embedded as `none` (crash). -/
def nameCheck (fm : Fm) (skill_path skill_md : String) (r : Report) : Option Report :=
  match dictGet? fm "name" with
  | some (FmValue.scalar s) =>
    if s ≠ "" then some (validate_name s skill_path skill_md r) else some r
  | some (FmValue.vlist l) => if l ≠ [] then none else some r
  | none => some r

/-- The `desc = fm.get("description", ""); if desc: validate_description(...)`
step.  A nonempty list value is truthy and later reaches `desc.lower()`,
which raises AttributeError on a list: embedded as `none` (crash). -/
def descCheck (fm : Fm) (skill_md : String) (r : Report) : Option Report :=
  match dictGet? fm "description" with
  | some (FmValue.scalar s) =>
    if s ≠ "" then some (validate_description s skill_md r) else some r
  | some (FmValue.vlist l) => if l ≠ [] then none else some r
  | none => some r

/-- `validate_skill_md(skill_md, skill_path, report)`.  Returns the updated
report together with the list of paths read from disk (instrumentation for
the read-count claims); `none` embeds an uncaught runtime type error.
An unreadable file is a `read-error`; in this model reading fails exactly
when the path is absent, and the attempted read is still logged.
The required frontmatter field set is iterated in the order
(name, description); Python set iteration order is unspecified and no claim
depends on it. -/
def validate_skill_md (fs : FS) (skill_md : String) (skill_path : String)
    (r : Report) : Option (Report × List String) :=
  match fsRead fs skill_md with
  | none => some (r.error "read-error" [skill_md] (some skill_md) none, [skill_md])
  | some content =>
    let r1 :=
      if lineCount content > 500 then
        r.warning "skill-too-large" [toString (lineCount content)] (some skill_md) none
      else r
    match parse_frontmatter content with
    | (_, some err) =>
      some (r1.error "invalid-frontmatter" [err] (some skill_md) none, [skill_md])
    | (none, none) =>
      some (r1.error "missing-frontmatter" [] (some skill_md) none, [skill_md])
    | (some fm, none) =>
      let r2 :=
        if (dictGet? fm "name").isNone then
          r1.error "missing-frontmatter-field" ["name"] (some skill_md) none
        else r1
      let r3 :=
        if (dictGet? fm "description").isNone then
          r2.error "missing-frontmatter-field" ["description"] (some skill_md) none
        else r2
      match nameCheck fm skill_path skill_md r3 with
      | none => none
      | some r4 =>
        match descCheck fm skill_md r4 with
        | none => none
        | some r5 => some (r5, [skill_md])

/-! ## Manifest data model -/

/-- The value of a plugin `skills` field: a JSON sequence of path strings,
or some other JSON value (the script only tests `isinstance(x, list)`). -/
inductive SkillsField where
  | slist (paths : List String)
  | notList
deriving DecidableEq, Repr

/-- One entry of the `plugins` sequence.  The fields the script reads are
embedded; presence is an `Option`.  (Non-string values of the four scalar
fields only ever flow into messages and dictionary keys and are embedded by
their string content.) -/
structure Plugin where
  name : Option String
  source : Option String
  description : Option String
  category : Option String
  skills : Option SkillsField
deriving DecidableEq, Repr

/-- The value of the manifest `plugins` field. -/
inductive PluginsField where
  | plist (ps : List Plugin)
  | notList
deriving DecidableEq, Repr

/-- The parsed marketplace.json document (the fields the script reads). -/
structure Manifest where
  name : Option String
  plugins : Option PluginsField
deriving DecidableEq, Repr

/-- The skill-path ownership dictionary `all_skill_paths`. -/
abbrev Owners := List (String × String)

/-! ## validate_plugin -/

def defaultPluginName (idx : Nat) : String :=
  "plugin[" ++ toString idx ++ "]"

/-- One iteration of the `for skill_path in skills` loop of validate_plugin. -/
def validateSkillOccurrence (fs : FS) (plugin_name : String) (sp : String)
    (r : Report) (owners : Owners) : Option (Report × Owners × List String) :=
  let r1 := r.bumpSkills
  let normalized := skillNormalize sp
  let skill_md := skillMdOf normalized
  if fsIsFile fs skill_md then
    let r2 :=
      match dictGet? owners normalized with
      | some owner => r1.error "duplicate-path" [sp, owner, plugin_name] none none
      | none => r1
    let owners1 := dictSet owners normalized plugin_name
    match validate_skill_md fs skill_md normalized r2 with
    | none => none
    | some (r3, reads) => some (r3, owners1, reads)
  else
    some ((r1.bumpMissing).error "missing-skill" [sp] (some skill_md)
            (some [sp, plugin_name, skill_md]), owners, [])

/-- The `for skill_path in skills` loop, threading report, ownership map and
the instrumented read log. -/
def skillsLoop (fs : FS) (plugin_name : String) (r : Report) (owners : Owners)
    (reads : List String) : List String → Option (Report × Owners × List String)
  | [] => some (r, owners, reads)
  | sp :: rest =>
    match validateSkillOccurrence fs plugin_name sp r owners with
    | none => none
    | some (r1, o1, rds) => skillsLoop fs plugin_name r1 o1 (reads ++ rds) rest

/-- `validate_plugin(plugin, idx, all_skill_paths, report, repo_root)`.
The required and recommended field sets are iterated in the fixed orders
(name, source) and (description, category); Python set iteration order is
unspecified and no claim depends on it. -/
def validate_plugin (fs : FS) (plugin : Plugin) (idx : Nat) (r : Report)
    (owners : Owners) : Option (Report × Owners × List String) :=
  let r1 := r.bumpPlugins
  let plugin_name := plugin.name.getD (defaultPluginName idx)
  let r2 :=
    if plugin.name.isNone then
      r1.error "required-field" [plugin_name, "name"] none none
    else r1
  let r3 :=
    if plugin.source.isNone then
      r2.error "required-field" [plugin_name, "source"] none none
    else r2
  let r4 :=
    if plugin.description.isNone then
      r3.warning "recommended-field" [plugin_name, "description"] none none
    else r3
  let r5 :=
    if plugin.category.isNone then
      r4.warning "recommended-field" [plugin_name, "category"] none none
    else r4
  match plugin.skills with
  | some SkillsField.notList =>
    some (r5.error "invalid-type" [plugin_name] none none, owners, [])
  | some (SkillsField.slist sps) => skillsLoop fs plugin_name r5 owners [] sps
  | none => skillsLoop fs plugin_name r5 owners [] []

/-! ## check_unique_plugin_names -/

/-- The `for i, plugin in enumerate(plugins)` loop of
check_unique_plugin_names, with the running index and `seen` map explicit. -/
def uniqueLoop (r : Report) (seen : List (String × Nat)) (i : Nat) :
    List Plugin → Report
  | [] => r
  | p :: rest =>
    let name := p.name.getD ""
    if name = "" then uniqueLoop r seen (i + 1) rest
    else
      let r1 :=
        match dictGet? seen name with
        | some i0 =>
          r.error "duplicate-plugin-name" [name, toString i0, toString i] none none
        | none => r
      uniqueLoop r1 (dictSet seen name i) (i + 1) rest

/-- `check_unique_plugin_names(plugins, report)`. -/
def check_unique_plugin_names (ps : List Plugin) (r : Report) : Report :=
  uniqueLoop r [] 0 ps

/-! ## validate_marketplace_structure and find_orphan_skills -/

/-- `validate_marketplace_structure(data, report)`.  The required field set
is iterated in the fixed order (name, plugins). -/
def validate_marketplace_structure (m : Manifest) (r : Report) : Report :=
  let r1 :=
    if m.name.isNone then r.error "required-field" ["name"] none none else r
  let r2 :=
    if m.plugins.isNone then r1.error "required-field" ["plugins"] none none else r1
  match m.plugins with
  | some PluginsField.notList => r2.error "invalid-type" ["plugins"] none none
  | _ => r2

def baseNameOf (p : String) : String :=
  (pySplitChar '/' p).getLastD ""

def parentOf (p : String) : String :=
  String.intercalate "/" (pySplitChar '/' p).dropLast

/-- `find_orphan_skills(repo_root, registered_paths, report)` (the returned
orphan list is unused by the caller and dropped here).  `rglob("SKILL.md")`
enumerates the files named SKILL.md under `skills/`, in file-system order;
the `skills_dir.is_dir()` guard holds exactly when some file lies under
`skills/` in this model. -/
def find_orphan_skills (fs : FS) (registered : Owners) (r : Report) : Report :=
  if fs.files.any (fun pc => strStarts pc.1 "skills/") then
    fs.files.foldl
      (fun acc pc =>
        if strStarts pc.1 "skills/" && baseNameOf pc.1 = "SKILL.md" then
          let normalized := parentOf pc.1
          if (dictGet? registered normalized).isNone then
            (acc.bumpOrphans).warning "orphan-skill" [normalized] (some pc.1)
              (some [normalized])
          else acc
        else acc)
      r
  else r

/-! ## verify (post-parse part) and apply_fixes -/

/-- The `for i, plugin in enumerate(plugins)` loop of verify. -/
def pluginsLoop (fs : FS) (i : Nat) (r : Report) (owners : Owners)
    (reads : List String) : List Plugin → Option (Report × Owners × List String)
  | [] => some (r, owners, reads)
  | p :: rest =>
    match validate_plugin fs p i r owners with
    | none => none
    | some (r1, o1, rds) => pluginsLoop fs (i + 1) r1 o1 (reads ++ rds) rest

/-- The steps of verify that follow structural validation: plugin-name
uniqueness, per-plugin validation, orphan scan. -/
def afterStructure (fs : FS) (ps : List Plugin) (r : Report) :
    Option (Report × List String) :=
  let r1 := check_unique_plugin_names ps r
  match pluginsLoop fs 0 r1 [] [] ps with
  | none => none
  | some (r2, owners, reads) => some (find_orphan_skills fs owners r2, reads)

/-- `verify(marketplace_path, ...)` from the point where the manifest has
been parsed (the file-exists and JSON-parse steps are fatal I/O glue and are
out of scope).  Mirrors the early return
`if not isinstance(plugins, list): return report`.  The second component is
the instrumented list of skill documents read. -/
def verifyChecks (m : Manifest) (fs : FS) : Option (Report × List String) :=
  let r := validate_marketplace_structure m Report.empty
  match m.plugins with
  | some PluginsField.notList => some (r, [])
  | some (PluginsField.plist ps) => afterStructure fs ps r
  | none => afterStructure fs [] r

/-- Modelled from the spec: the run in which, as section 7 of the spec puts
it, a failure in one rule never suppresses another rule and all non-fatal
steps run unconditionally — plugin-name uniqueness, per-plugin validation
and the orphan scan run even when the plugins field is present but not a
sequence (iterating over no plugins in that case). -/
def verifyIndependentChecks (m : Manifest) (fs : FS) : Option (Report × List String) :=
  let r := validate_marketplace_structure m Report.empty
  afterStructure fs
    (match m.plugins with
     | some (PluginsField.plist ps) => ps
     | _ => []) r

/-- The first fixing pass of apply_fixes on one plugin: keep only skill
references whose SKILL.md exists, assign the list back, and report whether
anything was removed.  A `skills` value that is present but not a sequence
is iterated by Python with behavior depending on its runtime type; this is
embedded as `none` (not determined by the model). -/
def fixSkills (fs : FS) (p : Plugin) : Option (Plugin × Bool) :=
  match p.skills with
  | some SkillsField.notList => none
  | some (SkillsField.slist sps) =>
    let keep := fun sp => fsIsFile fs (skillMdOf (skillNormalize sp))
    some ({ p with skills := some (SkillsField.slist (sps.filter keep)) },
          sps.any (fun sp => !keep sp))
  | none => some ({ p with skills := some (SkillsField.slist []) }, false)

/-- Truthiness of `p.get("skills")` in the second fixing pass.  After the
first pass every plugin carries a list, so the non-list arm is unreachable
there (a non-list value would be truthy for the values Python can iterate). -/
def pluginHasSkills (p : Plugin) : Bool :=
  match p.skills with
  | some (SkillsField.slist l) => !l.isEmpty
  | some SkillsField.notList => true
  | none => false

def optMapList {α β : Type} (f : α → Option β) : List α → Option (List β)
  | [] => some []
  | a :: as =>
    match f a, optMapList f as with
    | some b, some bs => some (b :: bs)
    | _, _ => none

/-- `apply_fixes(marketplace_path, data, repo_root, report)`: returns the
mutated manifest and the `fixed` flag (the file is rewritten iff the flag is
true).  A manifest without a `plugins` key raises KeyError at
`len(data["plugins"])`; a non-sequence `plugins` value never reaches
apply_fixes through verify (early return) and is likewise embedded as `none`. -/
def apply_fixes (m : Manifest) (fs : FS) : Option (Manifest × Bool) :=
  match m.plugins with
  | some (PluginsField.plist ps) =>
    match optMapList (fixSkills fs) ps with
    | none => none
    | some fixedPs =>
      let fixed1 := (fixedPs.map Prod.snd).any id
      let ps1 := fixedPs.map Prod.fst
      let kept := ps1.filter pluginHasSkills
      let fixed2 := decide (kept.length < ps1.length)
      some ({ m with plugins := some (PluginsField.plist kept) }, fixed1 || fixed2)
  | some PluginsField.notList => none
  | none => none

/-! ## Generic lemmas about report growth and the dictionaries -/

/-- Evaluate a predicate under an optional result; a `none` result embeds an
uncaught runtime error, about which nothing is asserted. -/
def onSome {α : Type} (o : Option α) (P : α → Prop) : Prop :=
  match o with
  | none => True
  | some a => P a

theorem step_error (c : Prop) [Decidable c] (r : Report) (rule : String)
    (args : List String) (p : Option String) (f : Option (List String)) :
    ∃ es, (if c then Report.error r rule args p f else r) =
        ⟨r.errors ++ es, r.warnings, r.stats⟩ ∧ ∀ e ∈ es, e.rule = rule := by
  by_cases h : c
  · exact ⟨[⟨rule, args, p, f⟩], by simp [h, Report.error], by simp⟩
  · exact ⟨[], by simp [h], by simp⟩

theorem step_warning (c : Prop) [Decidable c] (r : Report) (rule : String)
    (args : List String) (p : Option String) (f : Option (List String)) :
    ∃ ws, (if c then Report.warning r rule args p f else r) =
        ⟨r.errors, r.warnings ++ ws, r.stats⟩ ∧ ∀ e ∈ ws, e.rule = rule := by
  by_cases h : c
  · exact ⟨[⟨rule, args, p, f⟩], by simp [h, Report.warning], by simp⟩
  · exact ⟨[], by simp [h], by simp⟩

theorem dictGet_dictSet_self {α : Type} (d : List (String × α)) (k : String) (v : α) :
    dictGet? (dictSet d k v) k = some v := by
  induction d with
  | nil => simp [dictSet, dictGet?]
  | cons kv rest ih =>
    by_cases h : kv.1 = k
    · simp [dictSet, dictGet?, h]
    · simpa [dictSet, dictGet?, h] using ih

/-! ## C1 -/

/-- C1: Report.passed is true exactly when the error list is empty, the
warnings field never affects it, and the exit code computed by main is 0
when the report passed and 1 otherwise. -/
theorem c1_passed_and_exit_code : ∀ r : Report,
    (r.passed = true ↔ r.errors = []) ∧
    (∀ ws, Report.passed { r with warnings := ws } = r.passed) ∧
    (exitCode r = 0 ↔ r.errors = []) ∧
    (exitCode r = 1 ↔ r.errors ≠ []) := by
  intro r
  have h1 : r.passed = true ↔ r.errors = [] := by
    simp [Report.passed, List.length_eq_zero]
  have hnot : ¬r.passed = true → ¬r.errors = [] := fun hp he => hp (h1.mpr he)
  have h2 : exitCode r = 0 ↔ r.errors = [] := by
    unfold exitCode
    by_cases hp : r.passed = true
    · simp [hp, h1.mp hp]
    · simp [hp, hnot hp]
  have h3 : exitCode r = 1 ↔ r.errors ≠ [] := by
    unfold exitCode
    by_cases hp : r.passed = true
    · simp [hp, h1.mp hp]
    · simp [hp, hnot hp]
  exact ⟨h1, fun ws => rfl, h2, h3⟩

/-! ## C2 -/

/-- Modelled from the claim wording of C2: remove one leading "./" when
present and leave the string unchanged otherwise. -/
def claimNormalize (p : String) : String :=
  if strStarts p "./" then strDropN p 2 else p

/-- C2 counterexample: the script normalizes with `lstrip("./")`, which
removes every leading dot or slash; on ".hidden" (which has no leading
"./") the script produces "hidden", not the unchanged string the claim
requires. -/
theorem c2_counterexample :
    skillNormalize ".hidden" = "hidden" ∧ claimNormalize ".hidden" = ".hidden" ∧
    skillNormalize ".hidden" ≠ claimNormalize ".hidden" := by
  decide

/-- C2 (amended): the normalization used for existence checks, the ownership
map and orphan comparison removes all leading characters of the set
consisting of the dot and the slash; consequently "./" ++ q and q normalize
to the same registered path, resolve to the same SKILL.md path, and look up
to the same owner, so duplicate detection treats them as equal. -/
theorem c2_amended : ∀ p q : String,
    skillNormalize p = String.mk (p.data.dropWhile (fun c => c = '.' || c = '/')) ∧
    skillNormalize ("./" ++ q) = skillNormalize q ∧
    skillMdOf (skillNormalize ("./" ++ q)) = skillMdOf (skillNormalize q) ∧
    ∀ owners : Owners,
      dictGet? owners (skillNormalize ("./" ++ q)) = dictGet? owners (skillNormalize q) := by
  intro p q
  have hfun : (fun c => List.contains ['.', '/'] c) = (fun c => c = '.' || c = '/') := by
    funext c
    by_cases h1 : c = '.'
    · subst h1; decide
    by_cases h2 : c = '/'
    · subst h2; decide
    simp [List.contains, h1, h2]
  have h2 : skillNormalize ("./" ++ q) = skillNormalize q := by
    unfold skillNormalize pyLstripSet
    rw [String.data_append]
    norm_num [List.dropWhile]
  exact ⟨by simp [skillNormalize, pyLstripSet, hfun], h2, by rw [h2], fun o => by rw [h2]⟩

/-! ## C4 -/

/-- C4 counterexample: with a manifest whose plugins field is present but
not a sequence and one skill file on disk, verify records invalid-type and
returns early, while the independent run demanded by the claim would also
run the orphan scan (recording an orphan warning); the two runs differ. -/
theorem c4_counterexample :
    verifyChecks ⟨some "m", some PluginsField.notList⟩ ⟨[("skills/q/SKILL.md", "x")]⟩ ≠
      verifyIndependentChecks ⟨some "m", some PluginsField.notList⟩
        ⟨[("skills/q/SKILL.md", "x")]⟩ := by
  decide

/-- C4 (amended): plugin-name uniqueness, per-plugin validation and the
orphan scan all still run after earlier non-fatal errors, provided the
plugins field is not a present non-sequence; in that remaining case verify
records invalid-type and returns immediately after structural validation. -/
theorem c4_amended : ∀ (m : Manifest) (fs : FS),
    m.plugins ≠ some PluginsField.notList →
    verifyChecks m fs = verifyIndependentChecks m fs := by
  intro m fs h
  unfold verifyChecks verifyIndependentChecks
  rcases hp : m.plugins with _ | pf
  · simp only [hp]
  · cases pf
    · simp only [hp]
    · exact absurd hp h

theorem c4_witness :
    verifyChecks ⟨some "m", none⟩ ⟨[]⟩ = verifyIndependentChecks ⟨some "m", none⟩ ⟨[]⟩ :=
  c4_amended _ _ (by decide)

/-! ## C6 -/

/-- C6 counterexample: three plugins named "p" at indices 0, 1, 2 produce
duplicate-plugin-name errors citing (0, 1) and (1, 2); the claim demands
that the second error cite the first-seen index 0. -/
theorem c6_counterexample :
    (check_unique_plugin_names
        [⟨some "p", none, none, none, none⟩, ⟨some "p", none, none, none, none⟩,
          ⟨some "p", none, none, none, none⟩] Report.empty).errors.map Entry.msgArgs =
      [["p", "0", "1"], ["p", "1", "2"]] ∧
    (["p", "1", "2"] : List String) ≠ ["p", "0", "2"] := by
  decide

/-- C6 (amended): the seen map records the most recently seen index of each
non-empty plugin name; a repeated name emits exactly one
duplicate-plugin-name error citing the index currently in the map (the most
recent earlier occurrence) and the current index, after which the map is
updated to the current index — so with occurrences at i < j < k the errors
cite (i, j) and (j, k). -/
theorem c6_amended : ∀ (r : Report) (seen : List (String × Nat)) (i : Nat)
    (p : Plugin) (rest : List Plugin) (name : String),
    p.name = some name → name ≠ "" →
    ((∀ i0, dictGet? seen name = some i0 →
        uniqueLoop r seen i (p :: rest) =
          uniqueLoop
            (r.error "duplicate-plugin-name" [name, toString i0, toString i] none none)
            (dictSet seen name i) (i + 1) rest) ∧
      (dictGet? seen name = none →
        uniqueLoop r seen i (p :: rest) = uniqueLoop r (dictSet seen name i) (i + 1) rest) ∧
      dictGet? (dictSet seen name i) name = some i) := by
  intro r seen i p rest name hn hne
  refine ⟨?_, ?_, dictGet_dictSet_self _ _ _⟩
  · intro i0 hg
    simp [uniqueLoop, hn, hne, hg]
  · intro hg
    simp [uniqueLoop, hn, hne, hg]

theorem c6_witness :
    uniqueLoop Report.empty [("p", 0)] 1 [⟨some "p", none, none, none, none⟩] =
      uniqueLoop
        (Report.empty.error "duplicate-plugin-name" ["p", toString 0, toString 1] none none)
        (dictSet [("p", 0)] "p" 1) 2 [] :=
  (c6_amended Report.empty [("p", 0)] 1 ⟨some "p", none, none, none, none⟩ [] "p" rfl
      (by decide)).1 0 rfl

/-! ## Decomposition of the pure validators -/

/-- Append the errors and warnings of a run started from the empty report
onto an arbitrary starting report. -/
def shiftedFrom (r r0 : Report) : Report :=
  ⟨r.errors ++ r0.errors, r.warnings ++ r0.warnings, r.stats⟩

theorem shiftedFrom_empty (r : Report) : shiftedFrom r Report.empty = r := by
  simp [shiftedFrom, Report.empty]

theorem validate_name_shift (name sp md : String) (r : Report) :
    validate_name name sp md r = shiftedFrom r (validate_name name sp md Report.empty) := by
  unfold validate_name
  dsimp only
  split_ifs <;> simp [Report.error, Report.warning, Report.empty, shiftedFrom]

def isNameErrRule (e : Entry) : Bool :=
  e.rule == "name-too-long" || e.rule == "invalid-name-format" ||
    e.rule == "consecutive-hyphens"

def isNameWarnRule (e : Entry) : Bool :=
  e.rule == "non-gerund-name" || e.rule == "name-mismatch"

def isDescErrRule (e : Entry) : Bool :=
  e.rule == "description-too-long"

def isDescWarnRule (e : Entry) : Bool :=
  e.rule == "first-person-description" || e.rule == "missing-use-when"

theorem validate_name_rules (name sp md : String) :
    (validate_name name sp md Report.empty).errors.all isNameErrRule = true ∧
    (validate_name name sp md Report.empty).warnings.all isNameWarnRule = true := by
  unfold validate_name
  dsimp only
  split_ifs <;>
    simp [Report.error, Report.warning, Report.empty, isNameErrRule, isNameWarnRule]

theorem validate_description_shift (desc md : String) (r : Report) :
    validate_description desc md r =
      shiftedFrom r (validate_description desc md Report.empty) := by
  unfold validate_description
  dsimp only
  split_ifs <;> simp [Report.error, Report.warning, Report.empty, shiftedFrom]

theorem validate_description_rules (desc md : String) :
    (validate_description desc md Report.empty).errors.all isDescErrRule = true ∧
    (validate_description desc md Report.empty).warnings.all isDescWarnRule = true := by
  unfold validate_description
  dsimp only
  split_ifs <;>
    simp [Report.error, Report.warning, Report.empty, isDescErrRule, isDescWarnRule]

theorem nameCheck_master (fm : Fm) (sp md : String) (r r4 : Report)
    (h : nameCheck fm sp md r = some r4) :
    ∃ es ws, r4 = ⟨r.errors ++ es, r.warnings ++ ws, r.stats⟩ ∧
      es.all isNameErrRule = true ∧ ws.all isNameWarnRule = true := by
  unfold nameCheck at h
  rcases hg : dictGet? fm "name" with _ | v
  · rw [hg] at h
    refine ⟨[], [], ?_, by simp, by simp⟩
    simp at h
    subst h
    simp
  · rw [hg] at h
    rcases v with s | l
    · dsimp only at h
      by_cases hs : s ≠ ""
      · rw [if_pos hs, Option.some.injEq] at h
        subst h
        refine ⟨(validate_name s sp md Report.empty).errors,
          (validate_name s sp md Report.empty).warnings, ?_,
          (validate_name_rules s sp md).1, (validate_name_rules s sp md).2⟩
        rw [validate_name_shift]
        rfl
      · rw [if_neg hs, Option.some.injEq] at h
        subst h
        exact ⟨[], [], by simp, by simp, by simp⟩
    · dsimp only at h
      by_cases hl : l ≠ []
      · rw [if_pos hl] at h
        simp at h
      · rw [if_neg hl, Option.some.injEq] at h
        subst h
        exact ⟨[], [], by simp, by simp, by simp⟩

theorem descCheck_master (fm : Fm) (md : String) (r r4 : Report)
    (h : descCheck fm md r = some r4) :
    ∃ es ws, r4 = ⟨r.errors ++ es, r.warnings ++ ws, r.stats⟩ ∧
      es.all isDescErrRule = true ∧ ws.all isDescWarnRule = true := by
  unfold descCheck at h
  rcases hg : dictGet? fm "description" with _ | v
  · rw [hg] at h
    refine ⟨[], [], ?_, by simp, by simp⟩
    simp at h
    subst h
    simp
  · rw [hg] at h
    rcases v with s | l
    · dsimp only at h
      by_cases hs : s ≠ ""
      · rw [if_pos hs, Option.some.injEq] at h
        subst h
        refine ⟨(validate_description s md Report.empty).errors,
          (validate_description s md Report.empty).warnings, ?_,
          (validate_description_rules s md).1, (validate_description_rules s md).2⟩
        rw [validate_description_shift]
        rfl
      · rw [if_neg hs, Option.some.injEq] at h
        subst h
        exact ⟨[], [], by simp, by simp, by simp⟩
    · dsimp only at h
      by_cases hl : l ≠ []
      · rw [if_pos hl] at h
        simp at h
      · rw [if_neg hl, Option.some.injEq] at h
        subst h
        exact ⟨[], [], by simp, by simp, by simp⟩

/-- parse_frontmatter always returns either a mapping with no error or no
mapping with a non-empty error message. -/
theorem parse_frontmatter_shape (content : String) :
    (∃ fm, parse_frontmatter content = (some fm, none)) ∨
    (∃ msg, parse_frontmatter content = (none, some msg) ∧ msg ≠ "") := by
  unfold parse_frontmatter
  rcases h : pySplitChar '\n' content with _ | ⟨l0, rest⟩
  · right
    exact ⟨_, rfl, by decide⟩
  · dsimp only
    split_ifs with h0
    · right
      exact ⟨_, rfl, by decide⟩
    · rcases hf : rest.findIdx? (fun l => pyStrip l = "---") with _ | i
      · simp only [hf]
        right
        exact ⟨_, rfl, by decide⟩
      · simp only [hf]
        left
        exact ⟨_, rfl⟩

/-! ## Rule disambiguation helpers -/

theorem nameErr_ne_mf (e : Entry) (h : isNameErrRule e = true) :
    e.rule ≠ "missing-frontmatter" := by
  have hd : (e.rule = "name-too-long" ∨ e.rule = "invalid-name-format") ∨
      e.rule = "consecutive-hyphens" := by
    simpa [isNameErrRule, Bool.or_eq_true, beq_iff_eq] using h
  rcases hd with (h1 | h1) | h1 <;> rw [h1] <;> decide

theorem descErr_ne_mf (e : Entry) (h : isDescErrRule e = true) :
    e.rule ≠ "missing-frontmatter" := by
  have hd : e.rule = "description-too-long" := by
    simpa [isDescErrRule, beq_iff_eq] using h
  rw [hd]; decide

theorem nameWarn_ne_stl (e : Entry) (h : isNameWarnRule e = true) :
    e.rule ≠ "skill-too-large" := by
  have hd : e.rule = "non-gerund-name" ∨ e.rule = "name-mismatch" := by
    simpa [isNameWarnRule, Bool.or_eq_true, beq_iff_eq] using h
  rcases hd with h1 | h1 <;> rw [h1] <;> decide

theorem descWarn_ne_stl (e : Entry) (h : isDescWarnRule e = true) :
    e.rule ≠ "skill-too-large" := by
  have hd : e.rule = "first-person-description" ∨ e.rule = "missing-use-when" := by
    simpa [isDescWarnRule, Bool.or_eq_true, beq_iff_eq] using h
  rcases hd with h1 | h1 <;> rw [h1] <;> decide

/-! ## The master decomposition of validate_skill_md -/

/-- Every completed call of validate_skill_md appends its errors and
warnings onto the incoming report, leaves the counters unchanged, reads
exactly the one document it was given, never appends a missing-frontmatter
error, and appends a skill-too-large warning exactly when the read document
splits into more than 500 newline-separated parts. -/
theorem validate_skill_md_master (fs : FS) (p sp : String) (r : Report) :
    onSome (validate_skill_md fs p sp r) (fun out =>
      ∃ es ws, out.1 = ⟨r.errors ++ es, r.warnings ++ ws, r.stats⟩ ∧ out.2 = [p] ∧
        (∀ e ∈ es, e.rule ≠ "missing-frontmatter") ∧
        ((∃ e ∈ ws, e.rule = "skill-too-large") ↔
          ∃ content, fsRead fs p = some content ∧ lineCount content > 500)) := by
  unfold validate_skill_md
  rcases hread : fsRead fs p with _ | content
  · dsimp only [onSome]
    refine ⟨[⟨"read-error", [p], some p, none⟩], [], by simp [Report.error], rfl, ?_, ?_⟩
    · intro e he
      simp only [List.mem_singleton] at he
      rw [he]
      show ("read-error" : String) ≠ "missing-frontmatter"
      decide
    · simp
  · dsimp only
    rcases parse_frontmatter_shape content with ⟨fm, hp⟩ | ⟨msg, hp, hmsg⟩ <;> rw [hp]
    · -- success: frontmatter parsed
      obtain ⟨ws0, hw0, qw0⟩ := step_warning (lineCount content > 500) r "skill-too-large"
        [toString (lineCount content)] (some p) none
      have hws0 : (∃ e ∈ ws0, e.rule = "skill-too-large") ↔ lineCount content > 500 := by
        by_cases hc : lineCount content > 500
        · rw [if_pos hc] at hw0
          constructor
          · intro _; exact hc
          · intro _
            have : ws0 ≠ [] := by
              intro hnil
              rw [hnil] at hw0
              have := congrArg Report.warnings hw0
              simp [Report.warning] at this
            rcases ws0 with _ | ⟨e0, rest0⟩
            · exact absurd rfl this
            · exact ⟨e0, List.mem_cons_self e0 rest0, qw0 e0 (List.mem_cons_self e0 rest0)⟩
        · rw [if_neg hc] at hw0
          have hnil : ws0 = [] := by
            have := congrArg Report.warnings hw0
            simp at this
            exact this
          subst hnil
          simp [hc]
      rw [hw0]
      dsimp only [onSome]
      obtain ⟨es2, he2, qe2⟩ := step_error ((dictGet? fm "name").isNone = true)
        ⟨r.errors, r.warnings ++ ws0, r.stats⟩ "missing-frontmatter-field" ["name"]
        (some p) none
      rw [he2]
      dsimp only
      obtain ⟨es3, he3, qe3⟩ := step_error ((dictGet? fm "description").isNone = true)
        ⟨r.errors ++ es2, r.warnings ++ ws0, r.stats⟩ "missing-frontmatter-field"
        ["description"] (some p) none
      rw [he3]
      dsimp only
      rcases hnc : nameCheck fm sp p ⟨r.errors ++ es2 ++ es3, r.warnings ++ ws0, r.stats⟩
        with _ | r4
      · exact trivial
      · obtain ⟨es4, ws4, h4, q4e, q4w⟩ := nameCheck_master fm sp p _ r4 hnc
        dsimp only
        rcases hdc : descCheck fm p r4 with _ | r5
        · exact trivial
        · obtain ⟨es5, ws5, h5, q5e, q5w⟩ := descCheck_master fm p r4 r5 hdc
          dsimp only
          refine ⟨es2 ++ es3 ++ es4 ++ es5, ws0 ++ ws4 ++ ws5, ?_, rfl, ?_, ?_⟩
          · rw [h5, h4]
            dsimp only
            simp [List.append_assoc]
          · intro e he
            simp only [List.append_assoc, List.mem_append] at he
            rcases he with he | he | he | he
            · rw [qe2 e he]; decide
            · rw [qe3 e he]; decide
            · exact nameErr_ne_mf e (List.all_eq_true.mp q4e e he)
            · exact descErr_ne_mf e (List.all_eq_true.mp q5e e he)
          · have hl : (∃ e ∈ ws0 ++ ws4 ++ ws5, e.rule = "skill-too-large") ↔
                (∃ e ∈ ws0, e.rule = "skill-too-large") := by
              constructor
              · rintro ⟨e, he, hr⟩
                simp only [List.append_assoc, List.mem_append] at he
                rcases he with he | he | he
                · exact ⟨e, he, hr⟩
                · exact absurd hr (nameWarn_ne_stl e (List.all_eq_true.mp q4w e he))
                · exact absurd hr (descWarn_ne_stl e (List.all_eq_true.mp q5w e he))
              · rintro ⟨e, he, hr⟩
                exact ⟨e, by simp [List.mem_append, he], hr⟩
            rw [hl, hws0]
            constructor
            · intro hc; exact ⟨content, rfl, hc⟩
            · rintro ⟨c', hc', hgt⟩
              injection hc' with hc''
              rw [hc'']; exact hgt
    · -- parser returned an error message
      obtain ⟨ws0, hw0, qw0⟩ := step_warning (lineCount content > 500) r "skill-too-large"
        [toString (lineCount content)] (some p) none
      have hws0 : (∃ e ∈ ws0, e.rule = "skill-too-large") ↔ lineCount content > 500 := by
        by_cases hc : lineCount content > 500
        · rw [if_pos hc] at hw0
          constructor
          · intro _; exact hc
          · intro _
            have : ws0 ≠ [] := by
              intro hnil
              rw [hnil] at hw0
              have := congrArg Report.warnings hw0
              simp [Report.warning] at this
            rcases ws0 with _ | ⟨e0, rest0⟩
            · exact absurd rfl this
            · exact ⟨e0, List.mem_cons_self e0 rest0, qw0 e0 (List.mem_cons_self e0 rest0)⟩
        · rw [if_neg hc] at hw0
          have hnil : ws0 = [] := by
            have := congrArg Report.warnings hw0
            simp at this
            exact this
          subst hnil
          simp [hc]
      rw [hw0]
      dsimp only [onSome]
      refine ⟨[⟨"invalid-frontmatter", [msg], some p, none⟩], ws0,
        by simp [Report.error], rfl, ?_, ?_⟩
      · intro e he
        simp only [List.mem_singleton] at he
        rw [he]
        show ("invalid-frontmatter" : String) ≠ "missing-frontmatter"
        decide
      · rw [hws0]
        constructor
        · intro hc; exact ⟨content, rfl, hc⟩
        · rintro ⟨c', hc', hgt⟩
          injection hc' with hc''
          rw [hc'']; exact hgt

/-! ## C10 -/

/-- C10: parse_frontmatter always returns either a mapping with no error or
no mapping with a non-empty error message, never neither; consequently the
missing-frontmatter branch of validate_skill_md is unreachable and every
missing-frontmatter error in an output report was already in the input
report, so the rule never appears in any run. -/
theorem c10_no_missing_frontmatter :
    (∀ content, (∃ fm, parse_frontmatter content = (some fm, none)) ∨
      (∃ msg, parse_frontmatter content = (none, some msg) ∧ msg ≠ "")) ∧
    (∀ (fs : FS) (p sp : String) (r : Report),
      onSome (validate_skill_md fs p sp r) (fun out =>
        ∀ e ∈ out.1.errors, e.rule = "missing-frontmatter" → e ∈ r.errors)) := by
  refine ⟨parse_frontmatter_shape, ?_⟩
  intro fs p sp r
  have h := validate_skill_md_master fs p sp r
  rcases hv : validate_skill_md fs p sp r with _ | out
  · exact trivial
  · rw [hv] at h
    dsimp only [onSome] at h ⊢
    obtain ⟨es, ws, h1, h2, h3, h4⟩ := h
    intro e he hrule
    rw [h1] at he
    dsimp only at he
    rcases List.mem_append.mp he with he | he
    · exact he
    · exact absurd hrule (h3 e he)

theorem c10_witness :
    (∃ fm, parse_frontmatter "x" = (some fm, none)) ∨
    (∃ msg, parse_frontmatter "x" = (none, some msg) ∧ msg ≠ "") :=
  c10_no_missing_frontmatter.1 "x"

/-! ## C8 -/

/-- A document of 500 lines, each terminated by a newline (so the file ends
with a trailing newline and contains 500 newline characters). -/
def bigContent : String := String.join (List.replicate 500 "x\n")

/-- C8 counterexample: the 500-line document with a trailing newline splits
into 501 newline-separated parts, so validate_skill_md emits skill-too-large
for it, which the claim forbids for a document of at most 500 lines. -/
theorem c8_counterexample :
    lineCount bigContent = 501 ∧
    (validate_skill_md ⟨[("skills/x/SKILL.md", bigContent)]⟩ "skills/x/SKILL.md" "skills/x"
        Report.empty).map (fun out => out.1.warnings.map Entry.rule) =
      some ["skill-too-large"] := by
  decide

/-- C8 (amended): validate_skill_md emits the skill-too-large warning
exactly when the number of newline-separated parts of the document exceeds
500, that is, when the document contains at least 500 newline characters; a
500-line document that ends with a trailing newline contains 500 newlines
and therefore does trigger the warning. -/
theorem c8_size_warning_iff : ∀ (fs : FS) (p sp : String) (r : Report) (content : String),
    fsRead fs p = some content →
    onSome (validate_skill_md fs p sp r) (fun out =>
      ∃ ws, out.1.warnings = r.warnings ++ ws ∧
        ((∃ e ∈ ws, e.rule = "skill-too-large") ↔ lineCount content > 500)) := by
  intro fs p sp r content hc
  have h := validate_skill_md_master fs p sp r
  rcases hv : validate_skill_md fs p sp r with _ | out
  · exact trivial
  · rw [hv] at h
    dsimp only [onSome] at h ⊢
    obtain ⟨es, ws, h1, h2, h3, h4⟩ := h
    refine ⟨ws, by rw [h1], ?_⟩
    rw [h4]
    constructor
    · rintro ⟨c', hc', hgt⟩
      rw [hc] at hc'
      injection hc' with he
      rw [he]; exact hgt
    · intro hgt
      exact ⟨content, hc, hgt⟩

theorem c8_witness :
    onSome (validate_skill_md ⟨[("skills/x/SKILL.md", "---\n---\n")]⟩ "skills/x/SKILL.md"
        "skills/x" Report.empty) (fun out =>
      ∃ ws, out.1.warnings = Report.empty.warnings ++ ws ∧
        ((∃ e ∈ ws, e.rule = "skill-too-large") ↔ lineCount "---\n---\n" > 500)) :=
  c8_size_warning_iff _ _ _ _ _ rfl

/-! ## C3 -/

def c3plugin (n : String) : Plugin :=
  ⟨some n, some "s", some "d", some "c", some (SkillsField.slist ["skills/x"])⟩

def c3fs : FS := ⟨[("skills/x/SKILL.md", "---\nname: x\ndescription: ok\n---\n")]⟩

def c3manifest : Manifest :=
  ⟨some "m", some (PluginsField.plist [c3plugin "p1", c3plugin "p2", c3plugin "p3"])⟩

/-- C3 counterexample: three plugins p1, p2, p3 each reference skills/x,
whose SKILL.md exists; the duplicate-path error for the third occurrence
names p2, the most recent claimer, not the first plugin p1 as the claim
requires. -/
theorem c3_counterexample :
    (verifyChecks c3manifest c3fs).map (fun out =>
        (out.1.errors.filter (fun e => e.rule == "duplicate-path")).map Entry.msgArgs) =
      some [["skills/x", "p1", "p2"], ["skills/x", "p2", "p3"]] ∧
    (["skills/x", "p2", "p3"] : List String) ≠ ["skills/x", "p1", "p3"] := by
  decide

/-- C3 (amended): an occurrence of a skill path whose SKILL.md exists and
whose normalized path is already owned emits a duplicate-path error naming
the owner currently recorded in the map — the most recent prior claimer —
and the current plugin, and the bookkeeping then records the current plugin
as owner; for a third occurrence the error therefore cites the second
plugin. -/
theorem c3_duplicate_path_cites_latest : ∀ (fs : FS) (plugin_name sp : String) (r : Report)
    (owners : Owners) (owner : String),
    fsIsFile fs (skillMdOf (skillNormalize sp)) = true →
    dictGet? owners (skillNormalize sp) = some owner →
    onSome (validateSkillOccurrence fs plugin_name sp r owners) (fun out =>
      (⟨"duplicate-path", [sp, owner, plugin_name], none, none⟩ : Entry) ∈ out.1.errors ∧
      dictGet? out.2.1 (skillNormalize sp) = some plugin_name) := by
  intro fs pname sp r owners owner hfile hown
  unfold validateSkillOccurrence
  dsimp only
  rw [if_pos hfile, hown]
  dsimp only
  have h := validate_skill_md_master fs (skillMdOf (skillNormalize sp)) (skillNormalize sp)
    (Report.error (r.bumpSkills) "duplicate-path" [sp, owner, pname] none none)
  rcases hv : validate_skill_md fs (skillMdOf (skillNormalize sp)) (skillNormalize sp)
      (Report.error (r.bumpSkills) "duplicate-path" [sp, owner, pname] none none)
    with _ | ⟨r3, reads⟩
  · exact trivial
  · rw [hv] at h
    dsimp only [onSome] at h ⊢
    obtain ⟨es, ws, h1, _, _, _⟩ := h
    constructor
    · rw [h1]
      dsimp only
      simp [Report.error, Report.bumpSkills]
    · exact dictGet_dictSet_self owners (skillNormalize sp) pname

theorem c3_witness :
    onSome (validateSkillOccurrence ⟨[("skills/x/SKILL.md", "c")]⟩ "p2" "skills/x"
        Report.empty [("skills/x", "p1")]) (fun out =>
      (⟨"duplicate-path", ["skills/x", "p1", "p2"], none, none⟩ : Entry) ∈ out.1.errors ∧
      dictGet? out.2.1 (skillNormalize "skills/x") = some "p2") :=
  c3_duplicate_path_cites_latest _ _ _ _ _ _ (by decide) (by decide)

/-! ## C7: properties of the name pattern -/

/-- The character class [a-z0-9-] of NAME_PATTERN. -/
def allowedNameChar (c : Char) : Bool :=
  isLowerDigit c || c = '-'

theorem nameRun_allowed : ∀ (cs : List Char) (b : Bool), nameRun cs b = true →
    ∀ c ∈ cs, allowedNameChar c = true := by
  intro cs
  induction cs with
  | nil => intro b _ c hc; simp at hc
  | cons d ds ih =>
    intro b h c hc
    simp only [nameRun] at h
    by_cases hd : isLowerDigit d = true
    · rw [if_pos hd] at h
      rcases List.mem_cons.mp hc with rfl | hc
      · simp [allowedNameChar, hd]
      · exact ih false h c hc
    · rw [if_neg hd] at h
      by_cases hh : (decide (d = '-') && !b) = true
      · rw [if_pos hh] at h
        have hd2 : d = '-' := by
          simp only [Bool.and_eq_true, decide_eq_true_eq] at hh
          exact hh.1
        rcases List.mem_cons.mp hc with rfl | hc
        · simp [allowedNameChar, hd2]
        · exact ih true h c hc
      · rw [if_neg hh] at h
        simp at h

theorem nameRun_next : ∀ cs : List Char, nameRun cs true = true →
    ∃ d ds, cs = d :: ds ∧ isLowerDigit d = true := by
  intro cs h
  rcases cs with _ | ⟨d, ds⟩
  · simp [nameRun] at h
  · by_cases hd : isLowerDigit d = true
    · exact ⟨d, ds, rfl, hd⟩
    · simp only [nameRun] at h
      rw [if_neg hd] at h
      by_cases hh : (decide (d = '-') && !true) = true
      · simp at hh
      · rw [if_neg hh] at h
        simp at h

theorem nameRun_no_double_hyphen : ∀ (cs : List Char) (b : Bool), nameRun cs b = true →
    hasSub cs ['-', '-'] = false := by
  intro cs
  induction cs with
  | nil => intro b _; rfl
  | cons d ds ih =>
    intro b h
    simp only [nameRun] at h
    by_cases hd : isLowerDigit d = true
    · rw [if_pos hd] at h
      have h1 := ih false h
      have hne : d ≠ '-' := by
        intro he; rw [he] at hd; exact absurd hd (by decide)
      simp only [hasSub, listStarts]
      rw [h1]
      simp [hne]
    · rw [if_neg hd] at h
      by_cases hh : (decide (d = '-') && !b) = true
      · rw [if_pos hh] at h
        have h1 := ih true h
        obtain ⟨e, es, rfl, he⟩ := nameRun_next ds h
        have hne : e ≠ '-' := by
          intro hcon; rw [hcon] at he; exact absurd he (by decide)
        show (listStarts (d :: e :: es) ['-', '-'] || hasSub (e :: es) ['-', '-']) = false
        rw [h1]
        simp [listStarts, hne]
      · rw [if_neg hh] at h
        simp at h

theorem matchesCore_allowed (cs : List Char) (h : matchesCore cs = true) :
    ∀ c ∈ cs, allowedNameChar c = true := by
  rcases cs with _ | ⟨d, ds⟩
  · intro c hc; simp at hc
  · simp only [matchesCore, Bool.and_eq_true] at h
    intro c hc
    rcases List.mem_cons.mp hc with rfl | hc
    · simp [allowedNameChar, isLowerDigit, h.1]
    · exact nameRun_allowed ds false h.2 c hc

theorem matchesCore_no_double_hyphen (cs : List Char) (h : matchesCore cs = true) :
    hasSub cs ['-', '-'] = false := by
  rcases cs with _ | ⟨d, ds⟩
  · rfl
  · simp only [matchesCore, Bool.and_eq_true] at h
    have hne : d ≠ '-' := by
      intro hcon; rw [hcon] at h; exact absurd h.1 (by decide)
    simp only [hasSub, listStarts]
    rw [nameRun_no_double_hyphen ds false h.2]
    simp [hne]

theorem matchesCore_false_of_bad (cs : List Char) (c : Char) (hc : c ∈ cs)
    (hbad : allowedNameChar c = false) : matchesCore cs = false := by
  cases hmc : matchesCore cs with
  | false => rfl
  | true =>
    have := matchesCore_allowed cs hmc c hc
    rw [this] at hbad
    simp at hbad

theorem matchesCore_false_of_head (c : Char) (rest : List Char) (h : isLowerAZ c = false) :
    matchesCore (c :: rest) = false := by
  simp [matchesCore, h]

theorem namePatternMatch_false (s : String)
    (h1 : matchesCore s.data = false)
    (h2 : ¬ ∃ pre, s.data = pre ++ ['\n'] ∧ matchesCore pre = true) :
    namePatternMatch s = false := by
  unfold namePatternMatch
  rw [h1]
  simp only [Bool.false_or]
  rcases hl : s.data.getLast? with _ | c
  · rfl
  · dsimp only
    by_cases hc : c = '\n'
    · subst hc
      cases hmc : matchesCore s.data.dropLast with
      | false => simp
      | true =>
        exfalso
        apply h2
        refine ⟨s.data.dropLast, ?_, hmc⟩
        have hne : s.data ≠ [] := by
          intro h0; rw [h0] at hl; simp at hl
        have hfull := List.dropLast_append_getLast hne
        have hsome := (List.getLast?_eq_getLast s.data hne).symm.trans hl
        injection hsome with h3
        rw [← h3]
        exact hfull.symm
    · simp [hc]

/-- Names regarded by Python re as having no trailing-newline escape: when
the last character is not a newline, the trailing-newline reading of the
anchored pattern is impossible. -/
theorem no_trailing_newline (cs : List Char) (h : cs.getLast? ≠ some '\n') :
    ¬ ∃ pre, cs = pre ++ ['\n'] ∧ matchesCore pre = true := by
  rintro ⟨pre, hp, _⟩
  apply h
  rw [hp]
  simp

/-- C7 counterexample: the name "ab" followed by a newline contains the
newline, a character outside [a-z0-9-], yet re.match accepts it because
the dollar anchor matches just before a trailing newline, so validate_name
emits no invalid-name-format error. -/
theorem c7_counterexample :
    ('\n' ∈ ("ab\n" : String).data ∧ allowedNameChar '\n' = false) ∧
    (validate_name "ab\n" "skills/x" "m" Report.empty).errors.filter
        (fun e => e.rule == "invalid-name-format") = [] := by
  decide

/-- C7 (amended): a name fully matching the core pattern with length at most
64 produces zero naming errors; a name containing a character outside
[a-z0-9-] (in particular any uppercase letter) triggers invalid-name-format
unless the name is exactly a core-pattern match followed by one trailing
newline (Python dollar matches before a final newline); and a name whose
first character is not a lowercase letter — in particular a leading digit
or hyphen — always triggers invalid-name-format. -/
theorem c7_name_format : ∀ (name sp md : String) (r : Report),
    ((matchesCore name.data = true → name.length ≤ 64 →
        (validate_name name sp md r).errors = r.errors) ∧
      ((∃ c ∈ name.data, allowedNameChar c = false) →
        (¬ ∃ pre, name.data = pre ++ ['\n'] ∧ matchesCore pre = true) →
        (⟨"invalid-name-format", [name], some md, none⟩ : Entry) ∈
          (validate_name name sp md r).errors) ∧
      (∀ c rest, name.data = c :: rest → (('0' ≤ c ∧ c ≤ '9') ∨ c = '-') →
        (⟨"invalid-name-format", [name], some md, none⟩ : Entry) ∈
          (validate_name name sp md r).errors)) := by
  intro name sp md r
  refine ⟨?_, ?_, ?_⟩
  · intro hcore hlen
    have hm : namePatternMatch name = true := by
      unfold namePatternMatch
      rw [hcore]
      rfl
    have hdh := matchesCore_no_double_hyphen _ hcore
    have hne1 : ¬(name.length > 64) := by omega
    have hne2 : ¬((!namePatternMatch name) = true) := by rw [hm]; simp
    have hne3 : ¬(hasSub name.data ['-', '-'] = true) := by rw [hdh]; simp
    unfold validate_name
    dsimp only
    rw [if_neg hne1, if_neg hne2, if_neg hne3]
    split_ifs <;> simp [Report.warning]
  · rintro ⟨c, hc, hbad⟩ hnl
    have h1 := matchesCore_false_of_bad name.data c hc hbad
    have hm := namePatternMatch_false name h1 hnl
    have hyes : (!namePatternMatch name) = true := by rw [hm]; rfl
    unfold validate_name
    dsimp only
    rw [if_pos hyes]
    split_ifs <;> simp [Report.error, Report.warning]
  · intro c rest hdata hcd
    have hlow : isLowerAZ c = false := by
      rcases hcd with ⟨hd1, hd2⟩ | rfl
      · unfold isLowerAZ
        by_cases ha : 'a' ≤ c
        · exact absurd (le_trans ha hd2) (by decide)
        · simp [ha]
      · decide
    have h1 : matchesCore name.data = false := by
      rw [hdata]
      exact matchesCore_false_of_head c rest hlow
    have hm : namePatternMatch name = false := by
      unfold namePatternMatch
      rw [h1]
      simp only [Bool.false_or]
      rw [hdata]
      rcases rest with _ | ⟨d, ds⟩
      · dsimp only [List.getLast?]
        simp [matchesCore]
      · rcases hl : (c :: d :: ds).getLast? with _ | z
        · rfl
        · dsimp only
          have hdl : (c :: d :: ds).dropLast = c :: (d :: ds).dropLast := rfl
          rw [hdl, matchesCore_false_of_head c _ hlow]
          simp
    have hyes : (!namePatternMatch name) = true := by rw [hm]; rfl
    unfold validate_name
    dsimp only
    rw [if_pos hyes]
    split_ifs <;> simp [Report.error, Report.warning]

theorem c7_witness :
    (validate_name "abc" "x" "m" Report.empty).errors = Report.empty.errors ∧
    (⟨"invalid-name-format", ["a_b"], some "m", none⟩ : Entry) ∈
      (validate_name "a_b" "x" "m" Report.empty).errors ∧
    (⟨"invalid-name-format", ["9a"], some "m", none⟩ : Entry) ∈
      (validate_name "9a" "x" "m" Report.empty).errors :=
  ⟨(c7_name_format "abc" "x" "m" Report.empty).1 (by decide) (by decide),
    (c7_name_format "a_b" "x" "m" Report.empty).2.1 ⟨'_', by decide, by decide⟩
      (no_trailing_newline _ (by decide)),
    (c7_name_format "9a" "x" "m" Report.empty).2.2 '9' ['a'] (by decide)
      (Or.inl (by decide))⟩

/-! ## C5: read instrumentation -/

/-- The paths read while processing a list of skill references: one read per
occurrence whose SKILL.md exists. -/
def occReads (fs : FS) : List String → List String
  | [] => []
  | sp :: rest =>
    (if fsIsFile fs (skillMdOf (skillNormalize sp)) then [skillMdOf (skillNormalize sp)]
      else []) ++ occReads fs rest

/-- The paths read while validating a list of plugins. -/
def allReads (fs : FS) : List Plugin → List String
  | [] => []
  | p :: rest =>
    (match p.skills with
      | some (SkillsField.slist sps) => occReads fs sps
      | _ => []) ++ allReads fs rest

/-- The plugin list the orchestrator iterates over. -/
def manifestPlugins (m : Manifest) : List Plugin :=
  match m.plugins with
  | some (PluginsField.plist ps) => ps
  | _ => []

theorem validate_skill_md_reads (fs : FS) (p sp : String) (r : Report) :
    onSome (validate_skill_md fs p sp r) (fun out => out.2 = [p]) := by
  have h := validate_skill_md_master fs p sp r
  rcases hv : validate_skill_md fs p sp r with _ | out
  · exact trivial
  · rw [hv] at h
    dsimp only [onSome] at h ⊢
    obtain ⟨_, _, _, h2, _, _⟩ := h
    exact h2

theorem validateSkillOccurrence_reads (fs : FS) (pname sp : String) (r : Report)
    (owners : Owners) :
    onSome (validateSkillOccurrence fs pname sp r owners) (fun out =>
      out.2.2 = if fsIsFile fs (skillMdOf (skillNormalize sp)) then
        [skillMdOf (skillNormalize sp)] else []) := by
  unfold validateSkillOccurrence
  dsimp only
  by_cases hf : fsIsFile fs (skillMdOf (skillNormalize sp)) = true
  · rw [if_pos hf]
    rcases hd : dictGet? owners (skillNormalize sp) with _ | ow <;> dsimp only
    · have hr := validate_skill_md_reads fs (skillMdOf (skillNormalize sp))
        (skillNormalize sp) (Report.bumpSkills r)
      rcases hv : validate_skill_md fs (skillMdOf (skillNormalize sp)) (skillNormalize sp)
          (Report.bumpSkills r) with _ | ⟨r3, reads⟩
      · exact trivial
      · rw [hv] at hr
        dsimp only [onSome] at hr ⊢
        rw [if_pos hf]
        exact hr
    · have hr := validate_skill_md_reads fs (skillMdOf (skillNormalize sp))
        (skillNormalize sp)
        (Report.error (Report.bumpSkills r) "duplicate-path" [sp, ow, pname] none none)
      rcases hv : validate_skill_md fs (skillMdOf (skillNormalize sp)) (skillNormalize sp)
          (Report.error (Report.bumpSkills r) "duplicate-path" [sp, ow, pname] none none)
        with _ | ⟨r3, reads⟩
      · exact trivial
      · rw [hv] at hr
        dsimp only [onSome] at hr ⊢
        rw [if_pos hf]
        exact hr
  · rw [if_neg hf]
    dsimp only [onSome]
    rw [if_neg hf]

theorem skillsLoop_reads : ∀ (sps : List String) (fs : FS) (pname : String) (r : Report)
    (owners : Owners) (acc : List String),
    onSome (skillsLoop fs pname r owners acc sps)
      (fun out => out.2.2 = acc ++ occReads fs sps) := by
  intro sps
  induction sps with
  | nil =>
    intro fs pname r owners acc
    simp [skillsLoop, onSome, occReads]
  | cons sp rest ih =>
    intro fs pname r owners acc
    have hocc := validateSkillOccurrence_reads fs pname sp r owners
    unfold skillsLoop
    rcases hv : validateSkillOccurrence fs pname sp r owners with _ | ⟨r1, o1, rds⟩
    · exact trivial
    · rw [hv] at hocc
      dsimp only [onSome] at hocc
      have heq : acc ++ occReads fs (sp :: rest) = (acc ++ rds) ++ occReads fs rest := by
        simp only [occReads]
        rw [← hocc]
        simp [List.append_assoc]
      rw [heq]
      exact ih fs pname r1 o1 (acc ++ rds)

theorem validate_plugin_reads (fs : FS) (plugin : Plugin) (i : Nat) (r : Report)
    (owners : Owners) :
    onSome (validate_plugin fs plugin i r owners) (fun out =>
      out.2.2 = match plugin.skills with
        | some (SkillsField.slist sps) => occReads fs sps
        | _ => []) := by
  unfold validate_plugin
  dsimp only
  rcases hs : plugin.skills with _ | sf
  · simpa using skillsLoop_reads [] fs _ _ owners []
  · cases sf with
    | slist sps => simpa using skillsLoop_reads sps fs _ _ owners []
    | notList => dsimp only [onSome]

theorem pluginsLoop_reads : ∀ (ps : List Plugin) (fs : FS) (i : Nat) (r : Report)
    (owners : Owners) (acc : List String),
    onSome (pluginsLoop fs i r owners acc ps)
      (fun out => out.2.2 = acc ++ allReads fs ps) := by
  intro ps
  induction ps with
  | nil =>
    intro fs i r owners acc
    simp [pluginsLoop, onSome, allReads]
  | cons p rest ih =>
    intro fs i r owners acc
    have hp := validate_plugin_reads fs p i r owners
    unfold pluginsLoop
    rcases hv : validate_plugin fs p i r owners with _ | ⟨r1, o1, rds⟩
    · exact trivial
    · rw [hv] at hp
      dsimp only [onSome] at hp
      have heq : acc ++ allReads fs (p :: rest) = (acc ++ rds) ++ allReads fs rest := by
        simp only [allReads]
        rw [← hp]
        simp [List.append_assoc]
      rw [heq]
      exact ih fs (i + 1) r1 o1 (acc ++ rds)

theorem afterStructure_reads (fs : FS) (ps : List Plugin) (r : Report) :
    onSome (afterStructure fs ps r) (fun out => out.2 = allReads fs ps) := by
  unfold afterStructure
  dsimp only
  have h := pluginsLoop_reads ps fs 0 (check_unique_plugin_names ps r) [] []
  rcases hv : pluginsLoop fs 0 (check_unique_plugin_names ps r) [] [] ps
    with _ | ⟨r2, ow, reads⟩
  · exact trivial
  · rw [hv] at h
    dsimp only [onSome] at h ⊢
    simpa using h

/-- C5 (amended): in every completed run each skill document is read once
per referencing occurrence whose SKILL.md exists — the read log of the run
equals, in order, the resolved paths of the existing skill references of
all plugins; a path referenced by n plugins is therefore read n times, not
once. -/
theorem c5_read_per_occurrence : ∀ (m : Manifest) (fs : FS),
    onSome (verifyChecks m fs) (fun out => out.2 = allReads fs (manifestPlugins m)) := by
  intro m fs
  unfold verifyChecks
  rcases hp : m.plugins with _ | pf
  · simp only [manifestPlugins, hp]
    exact afterStructure_reads fs [] _
  · cases pf with
    | plist ps =>
      simp only [manifestPlugins, hp]
      exact afterStructure_reads fs ps _
    | notList =>
      simp only [manifestPlugins, hp]
      dsimp only [onSome]
      rfl

/-- C5 counterexample: two plugins referencing the same existing skill path
produce a read log containing the same SKILL.md path twice, so the one
distinct document of this run is read twice, not exactly once. -/
theorem c5_counterexample :
    (verifyChecks ⟨some "m", some (PluginsField.plist [c3plugin "p1", c3plugin "p2"])⟩
        c3fs).map (fun out => out.2) =
      some ["skills/x/SKILL.md", "skills/x/SKILL.md"] ∧
    ¬(["skills/x/SKILL.md", "skills/x/SKILL.md"] : List String).Nodup := by
  constructor
  · decide
  · decide

/-! ## C9: fix-mode idempotence -/

theorem fixSkills_filtered (fs : FS) (p p1 : Plugin) (b : Bool)
    (h : fixSkills fs p = some (p1, b)) :
    ∃ sps : List String, p1.skills = some (SkillsField.slist
      (sps.filter (fun sp => fsIsFile fs (skillMdOf (skillNormalize sp))))) := by
  unfold fixSkills at h
  rcases hs : p.skills with _ | sf
  · rw [hs] at h
    dsimp only at h
    simp only [Option.some.injEq, Prod.mk.injEq] at h
    refine ⟨[], ?_⟩
    rw [← h.1]
    rfl
  · rw [hs] at h
    cases sf with
    | slist sps =>
      dsimp only at h
      simp only [Option.some.injEq, Prod.mk.injEq] at h
      refine ⟨sps, ?_⟩
      rw [← h.1]
    | notList =>
      dsimp only at h
      simp at h

theorem fixSkills_stable (fs : FS) (p : Plugin) (sps : List String)
    (h : p.skills = some (SkillsField.slist
      (sps.filter (fun sp => fsIsFile fs (skillMdOf (skillNormalize sp)))))) :
    fixSkills fs p = some (p, false) := by
  unfold fixSkills
  rw [h]
  dsimp only
  have hfil : (sps.filter (fun sp => fsIsFile fs (skillMdOf (skillNormalize sp)))).filter
      (fun sp => fsIsFile fs (skillMdOf (skillNormalize sp))) =
      sps.filter (fun sp => fsIsFile fs (skillMdOf (skillNormalize sp))) := by
    rw [List.filter_filter]
    congr 1
    funext a
    rw [Bool.and_self]
  have hany : (sps.filter (fun sp => fsIsFile fs (skillMdOf (skillNormalize sp)))).any
      (fun sp => !fsIsFile fs (skillMdOf (skillNormalize sp))) = false := by
    rw [Bool.eq_false_iff]
    intro hcon
    obtain ⟨x, hx, hxn⟩ := List.any_eq_true.mp hcon
    have hmem := (List.mem_filter.mp hx).2
    rw [hmem] at hxn
    simp at hxn
  rw [hfil, hany]
  have hp : { p with skills := some (SkillsField.slist
      (sps.filter (fun sp => fsIsFile fs (skillMdOf (skillNormalize sp))))) } = p := by
    rcases p with ⟨n, s, d, c, sk⟩
    simp only at h
    simp [h]
  rw [hp]

theorem optMapList_stable {α : Type} (f : α → Option (α × Bool)) (l : List α)
    (h : ∀ a ∈ l, f a = some (a, false)) :
    optMapList f l = some (l.map (fun a => (a, false))) := by
  induction l with
  | nil => rfl
  | cons a as ih =>
    unfold optMapList
    rw [h a (List.mem_cons_self a as), ih (fun b hb => h b (List.mem_cons_of_mem a hb))]
    rfl

theorem optMapList_mem {α β : Type} (f : α → Option β) (l : List α) (l' : List β)
    (h : optMapList f l = some l') : ∀ b ∈ l', ∃ a ∈ l, f a = some b := by
  induction l generalizing l' with
  | nil =>
    unfold optMapList at h
    simp only [Option.some.injEq] at h
    subst h
    intro b hb
    simp at hb
  | cons a as ih =>
    unfold optMapList at h
    rcases hf : f a with _ | b0
    · rw [hf] at h; simp at h
    · rw [hf] at h
      rcases hrest : optMapList f as with _ | bs
      · rw [hrest] at h; simp at h
      · rw [hrest] at h
        simp only [Option.some.injEq] at h
        subst h
        intro b hb
        rcases List.mem_cons.mp hb with rfl | hb
        · exact ⟨a, List.mem_cons_self a as, hf⟩
        · obtain ⟨a', ha', hfa⟩ := ih bs hrest b hb
          exact ⟨a', List.mem_cons_of_mem a ha', hfa⟩

/-- C9: apply_fixes is idempotent: whatever one completed fixing pass
produces, a second pass over the same file system removes no skill
reference and no plugin, returns the manifest unchanged, and reports no
mutation, so the file is left untouched. -/
theorem c9_fix_idempotent : ∀ (m : Manifest) (fs : FS) (m1 : Manifest) (b : Bool),
    apply_fixes m fs = some (m1, b) → apply_fixes m1 fs = some (m1, false) := by
  intro m fs m1 b h
  unfold apply_fixes at h
  rcases hp : m.plugins with _ | pf
  · rw [hp] at h; simp at h
  · rw [hp] at h
    cases pf with
    | notList => dsimp only at h; simp at h
    | plist ps =>
      dsimp only at h
      rcases hmap : optMapList (fixSkills fs) ps with _ | fixedPs
      · rw [hmap] at h; simp at h
      · rw [hmap] at h
        dsimp only at h
        simp only [Option.some.injEq, Prod.mk.injEq] at h
        obtain ⟨h1, _⟩ := h
        have hkept : ∀ q ∈ (fixedPs.map Prod.fst).filter pluginHasSkills,
            ∃ sps : List String, q.skills = some (SkillsField.slist
              (sps.filter (fun sp => fsIsFile fs (skillMdOf (skillNormalize sp))))) := by
          intro q hq
          have hq1 := (List.mem_filter.mp hq).1
          obtain ⟨pr, hpr, hq2⟩ := List.mem_map.mp hq1
          obtain ⟨a, _, hfa⟩ := optMapList_mem (fixSkills fs) ps fixedPs hmap pr hpr
          obtain ⟨sps, hsps⟩ := fixSkills_filtered fs a pr.1 pr.2 hfa
          exact ⟨sps, by rw [← hq2]; exact hsps⟩
        have hstable : ∀ q ∈ (fixedPs.map Prod.fst).filter pluginHasSkills,
            fixSkills fs q = some (q, false) := by
          intro q hq
          obtain ⟨sps, hsps⟩ := hkept q hq
          exact fixSkills_stable fs q sps hsps
        have hall : ∀ q ∈ (fixedPs.map Prod.fst).filter pluginHasSkills,
            pluginHasSkills q = true := by
          intro q hq
          exact (List.mem_filter.mp hq).2
        subst h1
        unfold apply_fixes
        dsimp only
        rw [optMapList_stable (fixSkills fs) _ hstable]
        dsimp only
        rw [List.map_map, List.map_map]
        have hfst : (Prod.fst ∘ fun a => (a, false)) = fun q : Plugin => q := rfl
        have hsnd : (Prod.snd ∘ fun a : Plugin => (a, false)) = fun _ : Plugin => false := rfl
        rw [hfst, hsnd]
        have hid : List.map (fun q : Plugin => q)
            (List.filter pluginHasSkills (List.map Prod.fst fixedPs)) =
            List.filter pluginHasSkills (List.map Prod.fst fixedPs) := by
          simp
        rw [hid, List.filter_eq_self.mpr hall]
        simp

theorem c9_witness :
    apply_fixes
        ⟨some "m", some (PluginsField.plist [⟨some "p", some "s", some "d", some "c",
          some (SkillsField.slist ["a"])⟩])⟩ ⟨[("a/SKILL.md", "x")]⟩ =
      some (⟨some "m", some (PluginsField.plist [⟨some "p", some "s", some "d", some "c",
        some (SkillsField.slist ["a"])⟩])⟩, false) :=
  c9_fix_idempotent
    ⟨some "m", some (PluginsField.plist [⟨some "p", some "s", some "d", some "c",
      some (SkillsField.slist ["a", "b"])⟩])⟩ ⟨[("a/SKILL.md", "x")]⟩
    ⟨some "m", some (PluginsField.plist [⟨some "p", some "s", some "d", some "c",
      some (SkillsField.slist ["a"])⟩])⟩ true (by decide)
